import Mathlib

/-!
Shallow embedding of the Stratal OpenAPI subsystem described by this
repository's documentation: convention routing, tag/security merging,
visibility filtering, response synthesis and the request-scoped
configuration service. The implementation package itself is not part of
this repository (the docs describe a framework maintained elsewhere), so
each operation is modelled from the specification's own words and the
behavioural statements in `src/content/docs/openapi`.
-/

namespace Stratal

/-- HTTP verbs used by the convention table. -/
inductive Verb
  | GET
  | POST
  | PUT
  | PATCH
  | DELETE
deriving DecidableEq, Repr

/-- The six conventional controller method names.  `show` is a Lean keyword,
hence the trailing apostrophe on that constructor. -/
inductive ConvMethod
  | index
  | show'
  | create
  | update
  | patch
  | destroy
deriving DecidableEq, Repr

/-- Modelled from the spec: the Route Descriptor Resolver's fixed lookup
table mapping a conventional method name to (HTTP verb, path suffix,
default success status).  The implementation lives in the framework
package, not in this docs repository. -/
def resolve : ConvMethod → Verb × String × Nat
  | .index => (.GET, "", 200)
  | .show' => (.GET, "/:id", 200)
  | .create => (.POST, "", 201)
  | .update => (.PUT, "/:id", 200)
  | .patch => (.PATCH, "/:id", 200)
  | .destroy => (.DELETE, "/:id", 200)

/-- Modelled from the spec: the full route path is the controller base path
concatenated with the resolved path suffix. -/
def fullPath (basePath : String) (m : ConvMethod) : String :=
  basePath ++ (resolve m).2.1

/-- Modelled from the spec: tag merge is plain concatenation, controller
tags first, duplicates retained. -/
def mergeTags (controllerTags routeTags : List String) : List String :=
  controllerTags ++ routeTags

/-- Walk the list keeping every name not seen yet, accumulating the seen
names. -/
def dedupFirstAux (seen : List String) : List String → List String
  | [] => []
  | x :: xs => if x ∈ seen then dedupFirstAux seen xs else x :: dedupFirstAux (x :: seen) xs

/-- Duplicate removal keeping the first occurrence of each name, as the
spec describes for the security merge. -/
def dedupFirst (xs : List String) : List String :=
  dedupFirstAux [] xs

/-- The always-present cookie-based session scheme name. -/
def sessionSchemeName : String := "sessionCookie"

/-- Modelled from the spec: the security merge — controller schemes first,
route schemes appended, duplicates removed keeping the first occurrence,
and the session scheme appended when guards are present and it is not
already listed.  The implementation lives in the framework package. -/
def mergeSecurity (controllerSecurity routeSecurity : List String)
    (hasGuards : Bool) : List String :=
  if hasGuards = true ∧ sessionSchemeName ∉ dedupFirst (controllerSecurity ++ routeSecurity) then
    dedupFirst (controllerSecurity ++ routeSecurity) ++ [sessionSchemeName]
  else
    dedupFirst (controllerSecurity ++ routeSecurity)

/-- Modelled from the spec: static visibility — the route's tri-state
`hideFromDocs` flag wins when explicitly set, otherwise the controller's,
otherwise `false`. -/
def effectiveHidden (routeFlag controllerFlag : Option Bool) : Bool :=
  routeFlag.getD (controllerFlag.getD false)

theorem dedupFirstAux_mem (a : String) :
    ∀ (xs seen : List String), a ∈ dedupFirstAux seen xs ↔ a ∈ xs ∧ a ∉ seen := by
  intro xs
  induction xs with
  | nil =>
    intro seen
    simp [dedupFirstAux]
  | cons x xs ih =>
    intro seen
    by_cases hx : x ∈ seen
    · rw [dedupFirstAux, if_pos hx, ih]
      constructor
      · rintro ⟨h1, h2⟩
        exact ⟨List.mem_cons_of_mem _ h1, h2⟩
      · rintro ⟨h1, h2⟩
        rcases List.mem_cons.mp h1 with h1 | h1
        · exact absurd (h1 ▸ hx) h2
        · exact ⟨h1, h2⟩
    · rw [dedupFirstAux, if_neg hx]
      constructor
      · intro h
        rcases List.mem_cons.mp h with h | h
        · subst h
          exact ⟨List.mem_cons_self _ _, hx⟩
        · rcases (ih (x :: seen)).mp h with ⟨h1, h2⟩
          exact ⟨List.mem_cons_of_mem _ h1, fun hs => h2 (List.mem_cons_of_mem _ hs)⟩
      · rintro ⟨h1, h2⟩
        rcases List.mem_cons.mp h1 with h1 | h1
        · subst h1
          exact List.mem_cons_self _ _
        · by_cases hax : a = x
          · subst hax
            exact List.mem_cons_self _ _
          · refine List.mem_cons_of_mem _ ((ih (x :: seen)).mpr ⟨h1, fun hs => ?_⟩)
            rcases List.mem_cons.mp hs with hs | hs
            · exact hax hs
            · exact h2 hs

theorem dedupFirstAux_nodup : ∀ (xs seen : List String), (dedupFirstAux seen xs).Nodup := by
  intro xs
  induction xs with
  | nil =>
    intro seen
    simp [dedupFirstAux]
  | cons x xs ih =>
    intro seen
    by_cases hx : x ∈ seen
    · rw [dedupFirstAux, if_pos hx]
      exact ih seen
    · rw [dedupFirstAux, if_neg hx]
      refine List.nodup_cons.mpr ⟨?_, ih _⟩
      intro hmem
      exact ((dedupFirstAux_mem x xs (x :: seen)).mp hmem).2 (List.mem_cons_self _ _)

theorem dedupFirstAux_sublist : ∀ (xs seen : List String), (dedupFirstAux seen xs).Sublist xs := by
  intro xs
  induction xs with
  | nil =>
    intro seen
    simp [dedupFirstAux]
  | cons x xs ih =>
    intro seen
    by_cases hx : x ∈ seen
    · rw [dedupFirstAux, if_pos hx]
      exact (ih seen).trans (List.sublist_cons_self x xs)
    · rw [dedupFirstAux, if_neg hx]
      exact (ih (x :: seen)).cons₂ x

theorem dedupFirst_mem (a : String) (xs : List String) : a ∈ dedupFirst xs ↔ a ∈ xs := by
  rw [dedupFirst, dedupFirstAux_mem]
  simp

theorem dedupFirst_nodup (xs : List String) : (dedupFirst xs).Nodup :=
  dedupFirstAux_nodup xs []

theorem dedupFirst_sublist (xs : List String) : (dedupFirst xs).Sublist xs :=
  dedupFirstAux_sublist xs []

/-- A response entry in an operation's response map: the schema it
references and its description. -/
structure ResponseDef where
  schemaName : String
  description : String
deriving DecidableEq, Repr

/-- Modelled from the spec: the six fixed auto-included error responses —
400 with the validation-error shape and 401/403/404/409/500 with the
standard error shape. -/
def autoErrorResponses : List (Nat × ResponseDef) :=
  [(400, ⟨"ValidationErrorResponse", "Validation error"⟩),
   (401, ⟨"ErrorResponse", "Unauthorized"⟩),
   (403, ⟨"ErrorResponse", "Forbidden"⟩),
   (404, ⟨"ErrorResponse", "Not found"⟩),
   (409, ⟨"ErrorResponse", "Conflict"⟩),
   (500, ⟨"ErrorResponse", "Internal server error"⟩)]

/-- Look a status code up in a response map (first entry wins). -/
def lookupStatus (rs : List (Nat × ResponseDef)) (s : Nat) : Option ResponseDef :=
  (rs.find? (fun p => p.1 == s)).map Prod.snd

/-- Modelled from the spec: the synthesizer merges the fixed error
responses onto a route's declared response map, skipping every status the
route declared explicitly (explicit declarations win). -/
def addErrorResponses (declared : List (Nat × ResponseDef)) : List (Nat × ResponseDef) :=
  declared ++ autoErrorResponses.filter (fun p => (lookupStatus declared p.1).isNone)

/-- One route of the assembled document as the visibility filter sees it:
its path template, its per-path document fragment (kept abstract as a
string), and its statically computed hidden state. -/
structure DocRoute where
  path : String
  item : String
  hidden : Bool
deriving DecidableEq, Repr

/-- Modelled from the spec: static hiding — routes whose effective hidden
state is true are removed when the Ready document is assembled. -/
def assembleVisible (routes : List DocRoute) : List DocRoute :=
  routes.filter (fun r => !r.hidden)

/-- Modelled from the spec: serving a request evaluates the (possibly
overridden) configuration's dynamic route filter against the
already-assembled document, after static hiding removed routes. -/
def serveDocument (routeFilter : String → String → Bool)
    (routes : List DocRoute) : List DocRoute :=
  (assembleVisible routes).filter (fun r => routeFilter r.path r.item)

/-- The `info` block of the specification document. -/
structure OpenAPIInfo where
  title : String
  version : String
  description : String
deriving DecidableEq, Repr

/-- The base specification configuration held by the config service:
document info, the two serving paths, extra security schemes (name paired
with an abstract definition) and the dynamic route filter. -/
structure OpenAPIConfig where
  info : OpenAPIInfo
  docsPath : String
  jsonPath : String
  securitySchemes : List (String × String)
  routeFilter : String → String → Bool

/-- A partial configuration patch: every top-level field is optional;
`none` means the field is absent from the patch. -/
structure ConfigPatch where
  info : Option OpenAPIInfo
  docsPath : Option String
  jsonPath : Option String
  securitySchemes : Option (List (String × String))
  routeFilter : Option (String → String → Bool)

/-- Modelled from the spec: `override` is a shallow replace-on-presence
merge — a field explicitly present in the patch replaces the base value
(including empty or falsy replacements), an absent field keeps the base
value. -/
def applyOverride (base : OpenAPIConfig) (p : ConfigPatch) : OpenAPIConfig :=
  ⟨p.info.getD base.info,
   p.docsPath.getD base.docsPath,
   p.jsonPath.getD base.jsonPath,
   p.securitySchemes.getD base.securitySchemes,
   p.routeFilter.getD base.routeFilter⟩

/-- The request-scoped config service instance: the immutable base
configuration plus the override patches applied during this request, in
order. -/
structure RequestConfigService where
  base : OpenAPIConfig
  patches : List ConfigPatch

/-- Modelled from the spec: each request starts with a fresh instance
holding the base configuration and no overrides. -/
def newRequest (base : OpenAPIConfig) : RequestConfigService :=
  ⟨base, []⟩

/-- Modelled from the spec: `override(patch)` records the patch on this
request's own instance only. -/
def override (s : RequestConfigService) (p : ConfigPatch) : RequestConfigService :=
  ⟨s.base, s.patches ++ [p]⟩

/-- Modelled from the spec: `effective()` returns the base configuration
with this request's patches shallow-merged over it, in order. -/
def effective (s : RequestConfigService) : OpenAPIConfig :=
  s.patches.foldl applyOverride s.base

/-- A family of per-request service instances, one per request id.  No
instance is shared: request `i` only ever reads and writes instance `i`. -/
def RequestSystem : Type :=
  Nat → RequestConfigService

/-- Request `j` applies an override patch: only instance `j` changes. -/
def overrideAt (sys : RequestSystem) (j : Nat) (p : ConfigPatch) : RequestSystem :=
  fun i => if i = j then override (sys i) p else sys i

/-- A route as the runtime router sees it: verb, path template and the
tri-state `hideFromDocs` flag. -/
structure RuntimeRoute where
  verb : Verb
  path : String
  hideFromDocs : Option Bool
deriving DecidableEq, Repr

/-- Replace a route's `hideFromDocs` flag, leaving routing data unchanged. -/
def withHideFromDocs (r : RuntimeRoute) (b : Option Bool) : RuntimeRoute :=
  ⟨r.verb, r.path, b⟩

/-- Split a character list into `/`-separated segments. -/
def splitSegsAux (cur : List Char) : List Char → List (List Char)
  | [] => [cur.reverse]
  | c :: cs => if c = '/' then cur.reverse :: splitSegsAux [] cs else splitSegsAux (c :: cur) cs

/-- The `/`-separated segments of a path string. -/
def splitSegs (s : String) : List (List Char) :=
  splitSegsAux [] s.toList

/-- One template segment matches one request segment: a `:param` segment
matches any non-empty segment, anything else matches literally. -/
def segMatches (tseg pseg : List Char) : Bool :=
  match tseg with
  | ':' :: _ => !pseg.isEmpty
  | _ => tseg == pseg

/-- A path template matches a concrete request path segment-wise. -/
def pathMatches (template actual : String) : Bool :=
  let ts := splitSegs template
  let ps := splitSegs actual
  ts.length == ps.length && (ts.zip ps).all (fun q => segMatches q.1 q.2)

/-- Modelled from the spec: runtime request dispatch — a route handles a
request when the verb matches and the path matches the template.  The
`hideFromDocs` flag is not consulted: hidden routes still handle
requests. -/
def handlesRequest (r : RuntimeRoute) (reqVerb : Verb) (reqPath : String) : Bool :=
  (r.verb == reqVerb) && pathMatches r.path reqPath

/-- A route declaration as the synthesizer consumes it: path, verb, the
optional response schema reference (absence is a configuration error) and
the named components its schemas register (name paired with an abstract
structural shape). -/
structure RouteSpec where
  path : String
  verb : Verb
  response : Option String
  components : List (String × String)
deriving DecidableEq, Repr

/-- The three assembly-time fatal errors. -/
inductive AssemblyError
  | missingResponse (path : String) (verb : Verb)
  | duplicateRoute (path : String) (verb : Verb)
  | conflictingComponent (componentName : String)
deriving DecidableEq, Repr

/-- Look a component name up in the registry (first entry wins). -/
def lookupComp (acc : List (String × String)) (n : String) : Option String :=
  (acc.find? (fun p => p.1 == n)).map Prod.snd

/-- Modelled from the spec: registering a named component — a fresh name
is added, a duplicate name with the identical structure is accepted, a
duplicate name with a conflicting structure is an assembly-time fatal
error. -/
def registerComponent (acc : List (String × String)) (c : String × String) :
    Except AssemblyError (List (String × String)) :=
  match lookupComp acc c.1 with
  | none => .ok (acc ++ [c])
  | some shape => if shape = c.2 then .ok acc else .error (.conflictingComponent c.1)

/-- Register a route's components one after the other, stopping at the
first conflict. -/
def registerComponents (acc : List (String × String)) :
    List (String × String) → Except AssemblyError (List (String × String))
  | [] => .ok acc
  | c :: cs =>
    match registerComponent acc c with
    | .error e => .error e
    | .ok acc' => registerComponents acc' cs

/-- The assembled Ready document: its path/verb pairs and its component
registry. -/
structure SpecDocument where
  paths : List (String × Verb)
  comps : List (String × String)
deriving DecidableEq, Repr

/-- Modelled from the spec: adding one route to the document under
assembly — missing response schema, duplicate path+verb and conflicting
component names are fatal. -/
def addRoute (doc : SpecDocument) (r : RouteSpec) : Except AssemblyError SpecDocument :=
  match r.response with
  | none => .error (.missingResponse r.path r.verb)
  | some _ =>
    if (r.path, r.verb) ∈ doc.paths then .error (.duplicateRoute r.path r.verb)
    else
      match registerComponents doc.comps r.components with
      | .error e => .error e
      | .ok comps => .ok ⟨doc.paths ++ [(r.path, r.verb)], comps⟩

/-- Walk the remaining routes, threading the document under assembly. -/
def synthesizeFrom (doc : SpecDocument) : List RouteSpec → Except AssemblyError SpecDocument
  | [] => .ok doc
  | r :: rs =>
    match addRoute doc r with
    | .error e => .error e
    | .ok doc' => synthesizeFrom doc' rs

/-- Modelled from the spec: the Specification Synthesizer walks all
registered routes and either aborts with an assembly-time fatal error or
produces the Ready document. -/
def synthesize (routes : List RouteSpec) : Except AssemblyError SpecDocument :=
  synthesizeFrom ⟨[], []⟩ routes

/-- The path+verb key of a route declaration. -/
def routeKey (r : RouteSpec) : String × Verb :=
  (r.path, r.verb)

/-- Every named component registered by any route, in registration order. -/
def allComponents (routes : List RouteSpec) : List (String × String) :=
  (routes.map RouteSpec.components).flatten

/-- All entries for one component name carry the same structure. -/
def compsAgree (l : List (String × String)) : Prop :=
  ∀ n s s', (n, s) ∈ l → (n, s') ∈ l → s = s'

/-- C2: every conventional method name resolves to exactly the fixed
(verb, path suffix, success status) triple of the documented table, and
the full route path is the controller base path concatenated with the
path suffix. -/
theorem resolve_convention_table (basePath : String) :
    resolve .index = (.GET, "", 200)
    ∧ resolve .show' = (.GET, "/:id", 200)
    ∧ resolve .create = (.POST, "", 201)
    ∧ resolve .update = (.PUT, "/:id", 200)
    ∧ resolve .patch = (.PATCH, "/:id", 200)
    ∧ resolve .destroy = (.DELETE, "/:id", 200)
    ∧ (∀ m : ConvMethod, fullPath basePath m = basePath ++ (resolve m).2.1) :=
  ⟨rfl, rfl, rfl, rfl, rfl, rfl, fun _ => rfl⟩

/-- C3: over every tri-state combination, the effective hidden state is
the route flag when explicitly set, else the controller flag when
explicitly set, else `false`. -/
theorem effectiveHidden_precedence :
    (∀ (b : Bool) (c : Option Bool), effectiveHidden (some b) c = b)
    ∧ (∀ b : Bool, effectiveHidden none (some b) = b)
    ∧ effectiveHidden none none = false := by
  refine ⟨fun b c => rfl, fun b => rfl, rfl⟩

/-- C8: the tag merge is plain list concatenation — controller tags first
and thus a prefix of the result, order preserved, duplicates retained. -/
theorem mergeTags_concatenation :
    (∀ controllerTags routeTags : List String,
        mergeTags controllerTags routeTags = controllerTags ++ routeTags)
    ∧ (∀ controllerTags routeTags : List String,
        ∃ t, mergeTags controllerTags routeTags = controllerTags ++ t)
    ∧ mergeTags ["Users"] ["Admin"] = ["Users", "Admin"]
    ∧ mergeTags ["A"] ["A"] = ["A", "A"] :=
  ⟨fun _ _ => rfl, fun _ rt => ⟨rt, rfl⟩, rfl, rfl⟩

/-- C10: changing a route's `hideFromDocs` flag never changes runtime
request handling — a hidden route matches and serves requests exactly as
when not hidden; in particular a route hidden from the docs still handles
a matching request. -/
theorem hideFromDocs_runtime_frame :
    (∀ (r : RuntimeRoute) (b : Option Bool) (v : Verb) (p : String),
        handlesRequest (withHideFromDocs r b) v p = handlesRequest r v p)
    ∧ handlesRequest ⟨.GET, "/api/users/:id", some true⟩ .GET "/api/users/42" = true := by
  refine ⟨fun r b v p => rfl, ?_⟩
  decide

/-- A concrete base configuration used by the closed instantiations. -/
def baseConfig : OpenAPIConfig :=
  ⟨⟨"Stratal API", "1.0.0", "base"⟩, "/api/docs", "/api/openapi.json", [],
   fun _ _ => true⟩

/-- A concrete patch setting every top-level field. -/
def fullPatch : ConfigPatch :=
  ⟨some ⟨"My API (staging)", "2.0.0", ""⟩, some "/docs", some "/openapi.json",
   some [("oauth2", "oauth2-def")], some (fun _ _ => false)⟩

/-- A concrete patch setting no field at all. -/
def emptyPatch : ConfigPatch :=
  ⟨none, none, none, none, none⟩

/-- C6: `override` is a shallow replace-on-presence merge — every
top-level field explicitly present in the patch replaces the base value
(including empty or falsy replacements) and every absent field keeps the
base value. -/
theorem override_shallow_merge (base : OpenAPIConfig) (p : ConfigPatch) :
    (∀ v, p.info = some v → (applyOverride base p).info = v)
    ∧ (p.info = none → (applyOverride base p).info = base.info)
    ∧ (∀ v, p.docsPath = some v → (applyOverride base p).docsPath = v)
    ∧ (p.docsPath = none → (applyOverride base p).docsPath = base.docsPath)
    ∧ (∀ v, p.jsonPath = some v → (applyOverride base p).jsonPath = v)
    ∧ (p.jsonPath = none → (applyOverride base p).jsonPath = base.jsonPath)
    ∧ (∀ v, p.securitySchemes = some v → (applyOverride base p).securitySchemes = v)
    ∧ (p.securitySchemes = none → (applyOverride base p).securitySchemes = base.securitySchemes)
    ∧ (∀ v, p.routeFilter = some v → (applyOverride base p).routeFilter = v)
    ∧ (p.routeFilter = none → (applyOverride base p).routeFilter = base.routeFilter) := by
  refine ⟨fun v h => ?_, fun h => ?_, fun v h => ?_, fun h => ?_, fun v h => ?_,
    fun h => ?_, fun v h => ?_, fun h => ?_, fun v h => ?_, fun h => ?_⟩ <;>
  simp [applyOverride, h]

/-- Closed instantiation of C6's theorem: a patch setting every field
replaces every value, and an empty patch keeps every base value. -/
theorem override_shallow_merge_witness :
    (applyOverride baseConfig fullPatch).info = ⟨"My API (staging)", "2.0.0", ""⟩
    ∧ (applyOverride baseConfig fullPatch).docsPath = "/docs"
    ∧ (applyOverride baseConfig fullPatch).jsonPath = "/openapi.json"
    ∧ (applyOverride baseConfig fullPatch).securitySchemes = [("oauth2", "oauth2-def")]
    ∧ (applyOverride baseConfig emptyPatch).info = baseConfig.info
    ∧ (applyOverride baseConfig emptyPatch).docsPath = baseConfig.docsPath
    ∧ (applyOverride baseConfig emptyPatch).jsonPath = baseConfig.jsonPath
    ∧ (applyOverride baseConfig emptyPatch).securitySchemes = baseConfig.securitySchemes
    ∧ (applyOverride baseConfig emptyPatch).routeFilter = baseConfig.routeFilter :=
  ⟨(override_shallow_merge baseConfig fullPatch).1 _ rfl,
   (override_shallow_merge baseConfig fullPatch).2.2.1 _ rfl,
   (override_shallow_merge baseConfig fullPatch).2.2.2.2.1 _ rfl,
   (override_shallow_merge baseConfig fullPatch).2.2.2.2.2.2.1 _ rfl,
   (override_shallow_merge baseConfig emptyPatch).2.1 rfl,
   (override_shallow_merge baseConfig emptyPatch).2.2.2.1 rfl,
   (override_shallow_merge baseConfig emptyPatch).2.2.2.2.2.1 rfl,
   (override_shallow_merge baseConfig emptyPatch).2.2.2.2.2.2.2.1 rfl,
   (override_shallow_merge baseConfig emptyPatch).2.2.2.2.2.2.2.2.2 rfl⟩

/-- C7: requests are isolated — an override applied by one request never
changes another request's effective configuration, a fresh request with
no override observes exactly the base configuration, and a request's own
override is exactly its patch merged over the base. -/
theorem override_request_isolation :
    (∀ (sys : RequestSystem) (i j : Nat) (p : ConfigPatch), i ≠ j →
        effective (overrideAt sys j p i) = effective (sys i))
    ∧ (∀ base : OpenAPIConfig, effective (newRequest base) = base)
    ∧ (∀ (base : OpenAPIConfig) (p : ConfigPatch),
        effective (override (newRequest base) p) = applyOverride base p) := by
  refine ⟨?_, fun base => rfl, fun base p => rfl⟩
  intro sys i j p hij
  simp [overrideAt, hij]

/-- Closed instantiation of C7's theorem: request 1's override leaves
request 0's effective configuration untouched. -/
theorem override_request_isolation_witness :
    effective (overrideAt (fun _ => newRequest baseConfig) 1 fullPatch 0)
      = effective (newRequest baseConfig) :=
  override_request_isolation.1 (fun _ => newRequest baseConfig) 0 1 fullPatch (by decide)

/-- C5: both gates must pass — a route appears in the served document iff
it survived static hiding and the dynamic filter accepts it, so a
statically hidden route is absent from the served document for every
dynamic filter, including one drawn from an overridden configuration. -/
theorem static_hiding_precedes_dynamic_filter (routes : List DocRoute) (r : DocRoute) :
    (∀ f : String → String → Bool, r.hidden = true → r ∉ serveDocument f routes)
    ∧ (∀ f : String → String → Bool,
        r ∈ serveDocument f routes ↔ r ∈ routes ∧ r.hidden = false ∧ f r.path r.item = true)
    ∧ (∀ s : RequestConfigService, r.hidden = true →
        r ∉ serveDocument (effective s).routeFilter routes) := by
  have hmem : ∀ f : String → String → Bool,
      r ∈ serveDocument f routes ↔ r ∈ routes ∧ r.hidden = false ∧ f r.path r.item = true := by
    intro f
    simp only [serveDocument, assembleVisible, List.mem_filter, Bool.not_eq_true',
      and_assoc]
  refine ⟨?_, hmem, ?_⟩
  · intro f hr hin
    rcases (hmem f).mp hin with ⟨_, h2, _⟩
    rw [hr] at h2
    cases h2
  · intro s hr hin
    rcases (hmem _).mp hin with ⟨_, h2, _⟩
    rw [hr] at h2
    cases h2

/-- A concrete statically hidden route. -/
def hiddenDocRoute : DocRoute :=
  ⟨"/api/internal", "internal-item", true⟩

/-- Closed instantiation of C5's theorem: an accept-everything dynamic
filter still cannot resurrect a statically hidden route. -/
theorem static_hiding_precedes_dynamic_filter_witness :
    hiddenDocRoute ∉ serveDocument (fun _ _ => true) [hiddenDocRoute] :=
  (static_hiding_precedes_dynamic_filter [hiddenDocRoute] hiddenDocRoute).1
    (fun _ _ => true) rfl

/-- C1: the security merge is the concatenation controller ++ route with
duplicate scheme names removed keeping the first occurrence, then the
session scheme name appended when guards are present and it is absent;
an explicitly empty route-level security list leaves every inherited
controller-level scheme in the result. -/
theorem mergeSecurity_spec (c r : List String) (g : Bool) :
    (mergeSecurity c r g).Nodup
    ∧ (∀ x, x ∈ mergeSecurity c r g ↔ x ∈ c ++ r ∨ (g = true ∧ x = sessionSchemeName))
    ∧ (g = true → sessionSchemeName ∈ mergeSecurity c r g)
    ∧ (g = false → mergeSecurity c r g = dedupFirst (c ++ r))
    ∧ (mergeSecurity c r false).Sublist (c ++ r)
    ∧ (∀ x, x ∈ c → x ∈ mergeSecurity c [] g)
    ∧ mergeSecurity ["bearerAuth"] [] false = ["bearerAuth"]
    ∧ mergeSecurity ["bearerAuth"] ["apiKey"] false = ["bearerAuth", "apiKey"]
    ∧ mergeSecurity [] [] true = ["sessionCookie"]
    ∧ mergeSecurity ["bearerAuth"] ["bearerAuth", "apiKey"] false = ["bearerAuth", "apiKey"] := by
  have hmem : ∀ (c' r' : List String) (g' : Bool) (x : String),
      x ∈ mergeSecurity c' r' g' ↔ x ∈ c' ++ r' ∨ (g' = true ∧ x = sessionSchemeName) := by
    intro c' r' g' x
    unfold mergeSecurity
    by_cases hcond : g' = true ∧ sessionSchemeName ∉ dedupFirst (c' ++ r')
    · rw [if_pos hcond, List.mem_append, dedupFirst_mem, List.mem_singleton]
      constructor
      · rintro (h | h)
        · exact Or.inl h
        · exact Or.inr ⟨hcond.1, h⟩
      · rintro (h | ⟨h1, h2⟩)
        · exact Or.inl h
        · exact Or.inr h2
    · rw [if_neg hcond, dedupFirst_mem]
      constructor
      · exact Or.inl
      · rintro (h | ⟨h1, h2⟩)
        · exact h
        · subst h2
          rcases not_and_or.mp hcond with h | h
          · exact absurd h1 h
          · exact (dedupFirst_mem _ _).mp (not_not.mp h)
  have hfalse : ∀ c' r' : List String, mergeSecurity c' r' false = dedupFirst (c' ++ r') := by
    intro c' r'
    unfold mergeSecurity
    rw [if_neg]
    rintro ⟨h1, h2⟩
    cases h1
  have hnodup : (mergeSecurity c r g).Nodup := by
    unfold mergeSecurity
    by_cases hcond : g = true ∧ sessionSchemeName ∉ dedupFirst (c ++ r)
    · rw [if_pos hcond, List.nodup_append]
      exact ⟨dedupFirst_nodup _, List.nodup_singleton _,
        fun a ha hb => hcond.2 (List.mem_singleton.mp hb ▸ ha)⟩
    · rw [if_neg hcond]
      exact dedupFirst_nodup _
  refine ⟨hnodup, hmem c r g, fun hg => (hmem c r g _).mpr (Or.inr ⟨hg, rfl⟩),
    fun hg => by rw [hg]; exact hfalse c r,
    by rw [hfalse c r]; exact dedupFirst_sublist _,
    fun x hx => (hmem c [] g x).mpr (Or.inl (List.mem_append.mpr (Or.inl hx))),
    by decide, by decide, by decide, by decide⟩

/-- Closed instantiation of C1's theorem: the session scheme is injected
for a guarded route, guard-free merges are bare first-occurrence dedup,
and an empty route list keeps the controller scheme. -/
theorem mergeSecurity_spec_witness :
    sessionSchemeName ∈ mergeSecurity [] [] true
    ∧ mergeSecurity ["bearerAuth"] ["apiKey"] false = dedupFirst (["bearerAuth"] ++ ["apiKey"])
    ∧ "bearerAuth" ∈ mergeSecurity ["bearerAuth"] [] false :=
  ⟨(mergeSecurity_spec [] [] true).2.2.1 rfl,
   (mergeSecurity_spec ["bearerAuth"] ["apiKey"] false).2.2.2.1 rfl,
   (mergeSecurity_spec ["bearerAuth"] [] false).2.2.2.2.2.1 "bearerAuth" (by decide)⟩

theorem lookupStatus_append (a b : List (Nat × ResponseDef)) (s : Nat) :
    lookupStatus (a ++ b) s = (lookupStatus a s).or (lookupStatus b s) := by
  unfold lookupStatus
  rw [List.find?_append]
  cases a.find? fun p => p.1 == s <;> simp

theorem find?_filter_key (s : Nat) (q : Nat × ResponseDef → Bool)
    (hq : ∀ p : Nat × ResponseDef, p.1 = s → q p = true) :
    ∀ l : List (Nat × ResponseDef),
      (l.filter q).find? (fun p => p.1 == s) = l.find? (fun p => p.1 == s) := by
  intro l
  induction l with
  | nil => rfl
  | cons a l ih =>
    by_cases ha : a.1 = s
    · rw [List.filter_cons_of_pos (hq a ha), List.find?_cons_of_pos _ (by simpa using ha),
        List.find?_cons_of_pos _ (by simpa using ha)]
    · by_cases hqa : q a = true
      · rw [List.filter_cons_of_pos hqa, List.find?_cons_of_neg _ (by simpa using ha),
          List.find?_cons_of_neg _ (by simpa using ha), ih]
      · rw [List.filter_cons_of_neg (by simpa using hqa),
          List.find?_cons_of_neg _ (by simpa using ha), ih]

theorem lookupStatus_filter_key (s : Nat) (q : Nat × ResponseDef → Bool)
    (hq : ∀ p : Nat × ResponseDef, p.1 = s → q p = true)
    (l : List (Nat × ResponseDef)) :
    lookupStatus (l.filter q) s = lookupStatus l s := by
  unfold lookupStatus
  rw [find?_filter_key s q hq]

/-- C4: the synthesizer adds exactly the six fixed error responses to an
operation's response map — an explicitly declared status is kept
unchanged, an undeclared status among the six is filled from the fixed
table, no other status appears, and a route declaring only a 200 ends up
with exactly 200, 400, 401, 403, 404, 409 and 500. -/
theorem addErrorResponses_spec (declared : List (Nat × ResponseDef)) (s : Nat) :
    (∀ d, lookupStatus declared s = some d →
        lookupStatus (addErrorResponses declared) s = some d)
    ∧ (lookupStatus declared s = none →
        lookupStatus (addErrorResponses declared) s = lookupStatus autoErrorResponses s)
    ∧ (s ∈ [400, 401, 403, 404, 409, 500] →
        (lookupStatus (addErrorResponses declared) s).isSome = true)
    ∧ (lookupStatus declared s = none → s ∉ [400, 401, 403, 404, 409, 500] →
        lookupStatus (addErrorResponses declared) s = none)
    ∧ (addErrorResponses [(200, ⟨"UserList", "Response 200"⟩)]).map Prod.fst
        = [200, 400, 401, 403, 404, 409, 500] := by
  have hsplit : lookupStatus (addErrorResponses declared) s
      = (lookupStatus declared s).or
        (lookupStatus (autoErrorResponses.filter fun p => (lookupStatus declared p.1).isNone) s) := by
    unfold addErrorResponses
    exact lookupStatus_append _ _ s
  have hfiltered : lookupStatus declared s = none →
      lookupStatus (autoErrorResponses.filter fun p => (lookupStatus declared p.1).isNone) s
        = lookupStatus autoErrorResponses s := by
    intro hnone
    exact lookupStatus_filter_key s _
      (fun p hp => by
        show (lookupStatus declared p.1).isNone = true
        rw [hp, hnone]
        rfl)
      autoErrorResponses
  refine ⟨?_, ?_, ?_, ?_, by decide⟩
  · intro d hd
    rw [hsplit, hd]
    rfl
  · intro hnone
    rw [hsplit, hnone, hfiltered hnone]
    rfl
  · intro hs
    cases hdecl : lookupStatus declared s with
    | some d =>
      rw [hsplit, hdecl]
      rfl
    | none =>
      rw [hsplit, hdecl, hfiltered hdecl]
      show (lookupStatus autoErrorResponses s).isSome = true
      fin_cases hs <;> decide
  · intro hnone hs
    rw [hsplit, hnone, hfiltered hnone]
    show lookupStatus autoErrorResponses s = none
    unfold lookupStatus
    rw [Option.map_eq_none', List.find?_eq_none]
    intro p hp
    simp only [beq_iff_eq]
    intro hps
    exact hs (hps ▸ (by fin_cases hp <;> decide : p.1 ∈ [400, 401, 403, 404, 409, 500]))

/-- Closed instantiation of C4's theorem: an explicitly declared 404 is
kept unchanged, an undeclared 400 is filled from the fixed table, 500 is
present on a response-only route, and no status outside the declared one
and the six is added. -/
theorem addErrorResponses_spec_witness :
    lookupStatus (addErrorResponses [(404, ⟨"MyError", "custom"⟩)]) 404
      = some ⟨"MyError", "custom"⟩
    ∧ lookupStatus (addErrorResponses [(200, ⟨"UserList", "ok"⟩)]) 400
      = lookupStatus autoErrorResponses 400
    ∧ (lookupStatus (addErrorResponses []) 500).isSome = true
    ∧ lookupStatus (addErrorResponses [(200, ⟨"UserList", "ok"⟩)]) 201 = none :=
  ⟨(addErrorResponses_spec [(404, ⟨"MyError", "custom"⟩)] 404).1 _ rfl,
   (addErrorResponses_spec [(200, ⟨"UserList", "ok"⟩)] 400).2.1 rfl,
   (addErrorResponses_spec [] 500).2.2.1 (by decide),
   (addErrorResponses_spec [(200, ⟨"UserList", "ok"⟩)] 201).2.2.2.1 rfl (by decide)⟩

theorem lookupComp_eq_none (acc : List (String × String)) (n : String) :
    lookupComp acc n = none ↔ ∀ s, (n, s) ∉ acc := by
  unfold lookupComp
  rw [Option.map_eq_none', List.find?_eq_none]
  constructor
  · intro h s hm
    have := h (n, s) hm
    simp at this
  · intro h p hp
    simp only [beq_iff_eq]
    intro hpn
    exact h p.2 (hpn ▸ (show (p.1, p.2) ∈ acc by simpa using hp))

theorem lookupComp_some_mem (acc : List (String × String)) (n s : String)
    (h : lookupComp acc n = some s) : (n, s) ∈ acc := by
  unfold lookupComp at h
  rw [Option.map_eq_some'] at h
  rcases h with ⟨p, hfind, hsnd⟩
  have hmem := List.mem_of_find?_eq_some hfind
  have hfst : p.1 = n := by simpa using List.find?_some hfind
  rw [← hfst, ← hsnd]
  simpa using hmem

theorem lookupComp_of_mem : ∀ acc : List (String × String), (acc.map Prod.fst).Nodup →
    ∀ n s : String, (n, s) ∈ acc → lookupComp acc n = some s := by
  intro acc
  induction acc with
  | nil =>
    intro _ n s hm
    cases hm
  | cons a l ih =>
    intro hk n s hm
    rw [List.map_cons, List.nodup_cons] at hk
    rcases List.mem_cons.mp hm with hm | hm
    · unfold lookupComp
      rw [List.find?_cons_of_pos _ (by rw [← hm]; simp)]
      rw [← hm]
      rfl
    · have hn : n ∈ l.map Prod.fst := List.mem_map_of_mem Prod.fst hm
      by_cases ha : a.1 = n
      · exact absurd (ha ▸ hn) hk.1
      · unfold lookupComp
        rw [List.find?_cons_of_neg _ (by simpa using ha)]
        exact ih hk.2 n s hm

theorem registerComponent_none (acc : List (String × String)) (c : String × String)
    (h : lookupComp acc c.1 = none) : registerComponent acc c = .ok (acc ++ [c]) := by
  unfold registerComponent
  rw [h]

theorem registerComponent_some (acc : List (String × String)) (c : String × String)
    (shape : String) (h : lookupComp acc c.1 = some shape) :
    registerComponent acc c
      = if shape = c.2 then .ok acc else .error (.conflictingComponent c.1) := by
  unfold registerComponent
  rw [h]

theorem registerComponent_result (acc : List (String × String)) (c : String × String)
    (hk : (acc.map Prod.fst).Nodup) (acc' : List (String × String))
    (h : registerComponent acc c = .ok acc') :
    (acc'.map Prod.fst).Nodup ∧ ∀ p, p ∈ acc' ↔ p ∈ acc ∨ p = c := by
  cases hl : lookupComp acc c.1 with
  | none =>
    rw [registerComponent_none acc c hl] at h
    cases h
    constructor
    · rw [List.map_append, List.nodup_append]
      refine ⟨hk, by simp, ?_⟩
      intro a ha hb
      simp at hb
      subst hb
      rcases List.mem_map.mp ha with ⟨p, hp, hfst⟩
      exact (lookupComp_eq_none acc c.1).mp hl p.2
        (hfst ▸ (show (p.1, p.2) ∈ acc by simpa using hp))
    · intro p
      simp [List.mem_append]
  | some shape =>
    rw [registerComponent_some acc c shape hl] at h
    by_cases hs : shape = c.2
    · rw [if_pos hs] at h
      cases h
      refine ⟨hk, fun p => ⟨Or.inl, ?_⟩⟩
      rintro (hp | hp)
      · exact hp
      · have hmem := lookupComp_some_mem acc c.1 shape hl
        rw [hs] at hmem
        rw [hp]
        simpa using hmem
    · rw [if_neg hs] at h
      cases h

theorem registerComponent_isOk (acc : List (String × String)) (c : String × String)
    (hk : (acc.map Prod.fst).Nodup) :
    (∃ acc', registerComponent acc c = .ok acc') ↔ ∀ s, (c.1, s) ∈ acc → s = c.2 := by
  cases hl : lookupComp acc c.1 with
  | none =>
    constructor
    · intro _ s hs
      exact absurd hs ((lookupComp_eq_none acc c.1).mp hl s)
    · intro _
      exact ⟨acc ++ [c], registerComponent_none acc c hl⟩
  | some shape =>
    by_cases hs : shape = c.2
    · constructor
      · intro _ s hsmem
        have := lookupComp_of_mem acc hk c.1 s hsmem
        rw [hl] at this
        injection this with h'
        rw [← h', hs]
      · intro _
        exact ⟨acc, by rw [registerComponent_some acc c shape hl, if_pos hs]⟩
    · constructor
      · rintro ⟨acc', h⟩
        rw [registerComponent_some acc c shape hl, if_neg hs] at h
        cases h
      · intro hall
        exact absurd (hall shape (lookupComp_some_mem acc c.1 shape hl)) hs

theorem compsAgree_congr (l₁ l₂ : List (String × String)) (h : ∀ p, p ∈ l₁ ↔ p ∈ l₂) :
    compsAgree l₁ ↔ compsAgree l₂ := by
  constructor
  · intro hA n s s' h1 h2
    exact hA n s s' ((h _).mpr h1) ((h _).mpr h2)
  · intro hA n s s' h1 h2
    exact hA n s s' ((h _).mp h1) ((h _).mp h2)

theorem compsAgree_mono (l₁ l₂ : List (String × String)) (h : ∀ p, p ∈ l₁ → p ∈ l₂) :
    compsAgree l₂ → compsAgree l₁ :=
  fun hA n s s' h1 h2 => hA n s s' (h _ h1) (h _ h2)

theorem compsAgree_of_keysNodup (acc : List (String × String))
    (hk : (acc.map Prod.fst).Nodup) : compsAgree acc := by
  intro n s s' h1 h2
  have e1 := lookupComp_of_mem acc hk n s h1
  have e2 := lookupComp_of_mem acc hk n s' h2
  rw [e1] at e2
  injection e2 with e

theorem registerComponents_cons_error (acc : List (String × String)) (c : String × String)
    (cs : List (String × String)) (e : AssemblyError)
    (h : registerComponent acc c = .error e) :
    registerComponents acc (c :: cs) = .error e := by
  unfold registerComponents
  rw [h]

theorem registerComponents_cons_ok (acc : List (String × String)) (c : String × String)
    (cs : List (String × String)) (acc₁ : List (String × String))
    (h : registerComponent acc c = .ok acc₁) :
    registerComponents acc (c :: cs) = registerComponents acc₁ cs := by
  conv_lhs => unfold registerComponents
  rw [h]

theorem registerComponents_result : ∀ (cs acc : List (String × String)),
    (acc.map Prod.fst).Nodup → ∀ acc', registerComponents acc cs = .ok acc' →
      (acc'.map Prod.fst).Nodup ∧ ∀ p, p ∈ acc' ↔ p ∈ acc ++ cs := by
  intro cs
  induction cs with
  | nil =>
    intro acc hk acc' h
    unfold registerComponents at h
    cases h
    exact ⟨hk, fun p => by simp⟩
  | cons c cs ih =>
    intro acc hk acc' h
    cases hrc : registerComponent acc c with
    | error e =>
      rw [registerComponents_cons_error acc c cs e hrc] at h
      cases h
    | ok acc₁ =>
      rw [registerComponents_cons_ok acc c cs acc₁ hrc] at h
      obtain ⟨hk₁, hmem₁⟩ := registerComponent_result acc c hk acc₁ hrc
      obtain ⟨hk', hmem'⟩ := ih acc₁ hk₁ acc' h
      refine ⟨hk', fun p => ?_⟩
      rw [hmem' p, List.mem_append, hmem₁ p, List.mem_append, List.mem_cons]
      tauto

theorem registerComponents_isOk : ∀ (cs acc : List (String × String)),
    (acc.map Prod.fst).Nodup →
      ((∃ acc', registerComponents acc cs = .ok acc') ↔ compsAgree (acc ++ cs)) := by
  intro cs
  induction cs with
  | nil =>
    intro acc hk
    simp only [List.append_nil]
    constructor
    · intro _
      exact compsAgree_of_keysNodup acc hk
    · intro _
      exact ⟨acc, rfl⟩
  | cons c cs ih =>
    intro acc hk
    cases hrc : registerComponent acc c with
    | error e =>
      constructor
      · rintro ⟨acc', h⟩
        rw [registerComponents_cons_error acc c cs e hrc] at h
        cases h
      · intro hA
        exfalso
        have hall : ∀ s, (c.1, s) ∈ acc → s = c.2 := by
          intro s hsmem
          exact hA c.1 s c.2 (List.mem_append.mpr (Or.inl hsmem)) (by simp)
        rcases (registerComponent_isOk acc c hk).mpr hall with ⟨acc₁, h₁⟩
        rw [h₁] at hrc
        cases hrc
    | ok acc₁ =>
      obtain ⟨hk₁, hmem₁⟩ := registerComponent_result acc c hk acc₁ hrc
      have heq : ∀ p, p ∈ acc₁ ++ cs ↔ p ∈ acc ++ c :: cs := by
        intro p
        rw [List.mem_append, hmem₁ p, List.mem_append, List.mem_cons]
        tauto
      constructor
      · rintro ⟨acc', h⟩
        rw [registerComponents_cons_ok acc c cs acc₁ hrc] at h
        exact (compsAgree_congr _ _ heq).mp ((ih acc₁ hk₁).mp ⟨acc', h⟩)
      · intro hA
        rcases (ih acc₁ hk₁).mpr ((compsAgree_congr _ _ heq).mpr hA) with ⟨acc', h⟩
        exact ⟨acc', by rw [registerComponents_cons_ok acc c cs acc₁ hrc]; exact h⟩

theorem addRoute_no_response (doc : SpecDocument) (r : RouteSpec)
    (h : r.response = none) :
    addRoute doc r = .error (.missingResponse r.path r.verb) := by
  unfold addRoute
  rw [h]

theorem addRoute_dup (doc : SpecDocument) (r : RouteSpec) (x : String)
    (h : r.response = some x) (h2 : (r.path, r.verb) ∈ doc.paths) :
    addRoute doc r = .error (.duplicateRoute r.path r.verb) := by
  unfold addRoute
  rw [h]
  exact if_pos h2

theorem addRoute_comps_error (doc : SpecDocument) (r : RouteSpec) (x : String)
    (e : AssemblyError) (h : r.response = some x) (h2 : (r.path, r.verb) ∉ doc.paths)
    (h3 : registerComponents doc.comps r.components = .error e) :
    addRoute doc r = .error e := by
  unfold addRoute
  rw [h, if_neg h2, h3]

theorem addRoute_ok (doc : SpecDocument) (r : RouteSpec) (x : String)
    (comps : List (String × String)) (h : r.response = some x)
    (h2 : (r.path, r.verb) ∉ doc.paths)
    (h3 : registerComponents doc.comps r.components = .ok comps) :
    addRoute doc r = .ok ⟨doc.paths ++ [(r.path, r.verb)], comps⟩ := by
  unfold addRoute
  rw [h, if_neg h2, h3]

theorem synthesizeFrom_cons_error (doc : SpecDocument) (r : RouteSpec)
    (rs : List RouteSpec) (e : AssemblyError) (h : addRoute doc r = .error e) :
    synthesizeFrom doc (r :: rs) = .error e := by
  unfold synthesizeFrom
  rw [h]

theorem synthesizeFrom_cons_ok (doc : SpecDocument) (r : RouteSpec)
    (rs : List RouteSpec) (doc₁ : SpecDocument) (h : addRoute doc r = .ok doc₁) :
    synthesizeFrom doc (r :: rs) = synthesizeFrom doc₁ rs := by
  conv_lhs => unfold synthesizeFrom
  rw [h]

theorem synthesizeFrom_isOk : ∀ (rs : List RouteSpec) (doc : SpecDocument),
    doc.paths.Nodup → (doc.comps.map Prod.fst).Nodup →
      ((∃ doc', synthesizeFrom doc rs = .ok doc') ↔
        ((∀ r ∈ rs, r.response.isSome = true)
          ∧ (doc.paths ++ rs.map routeKey).Nodup
          ∧ compsAgree (doc.comps ++ allComponents rs))) := by
  intro rs
  induction rs with
  | nil =>
    intro doc hp hk
    constructor
    · intro _
      refine ⟨by simp, by simpa using hp, ?_⟩
      simpa [allComponents] using compsAgree_of_keysNodup _ hk
    · intro _
      exact ⟨doc, rfl⟩
  | cons r rs ih =>
    intro doc hp hk
    cases hresp : r.response with
    | none =>
      constructor
      · rintro ⟨doc', h⟩
        rw [synthesizeFrom_cons_error doc r rs _ (addRoute_no_response doc r hresp)] at h
        cases h
      · rintro ⟨hresps, _, _⟩
        have := hresps r (List.mem_cons_self r rs)
        rw [hresp] at this
        cases this
    | some x =>
      by_cases hdup : (r.path, r.verb) ∈ doc.paths
      · constructor
        · rintro ⟨doc', h⟩
          rw [synthesizeFrom_cons_error doc r rs _ (addRoute_dup doc r x hresp hdup)] at h
          cases h
        · rintro ⟨_, hnd, _⟩
          exfalso
          rw [List.map_cons, List.nodup_append] at hnd
          exact hnd.2.2 hdup (List.mem_cons_self _ _)
      · cases hrc : registerComponents doc.comps r.components with
        | error e =>
          constructor
          · rintro ⟨doc', h⟩
            rw [synthesizeFrom_cons_error doc r rs _
              (addRoute_comps_error doc r x e hresp hdup hrc)] at h
            cases h
          · rintro ⟨_, _, hA⟩
            exfalso
            have hsub : compsAgree (doc.comps ++ r.components) := by
              refine compsAgree_mono _ _ ?_ hA
              intro p hp'
              rw [List.mem_append] at hp' ⊢
              rcases hp' with h' | h'
              · exact Or.inl h'
              · refine Or.inr ?_
                unfold allComponents
                rw [List.map_cons, List.flatten_cons, List.mem_append]
                exact Or.inl h'
            rcases (registerComponents_isOk r.components doc.comps hk).mpr hsub with ⟨acc', h'⟩
            rw [h'] at hrc
            cases hrc
        | ok comps₁ =>
          obtain ⟨hk₁, hmem₁⟩ := registerComponents_result r.components doc.comps hk comps₁ hrc
          have hp₁ : (doc.paths ++ [(r.path, r.verb)]).Nodup := by
            rw [List.nodup_append]
            exact ⟨hp, List.nodup_singleton _,
              fun a ha hb => hdup (List.mem_singleton.mp hb ▸ ha)⟩
          have hIH := ih ⟨doc.paths ++ [(r.path, r.verb)], comps₁⟩ hp₁ hk₁
          have hstep : synthesizeFrom doc (r :: rs)
              = synthesizeFrom ⟨doc.paths ++ [(r.path, r.verb)], comps₁⟩ rs :=
            synthesizeFrom_cons_ok doc r rs _ (addRoute_ok doc r x comps₁ hresp hdup hrc)
          have hpaths_iff : ((doc.paths ++ [(r.path, r.verb)]) ++ rs.map routeKey).Nodup
              ↔ (doc.paths ++ (r.path, r.verb) :: rs.map routeKey).Nodup := by
            rw [List.append_assoc, List.singleton_append]
          have hcomps_iff : compsAgree (comps₁ ++ allComponents rs)
              ↔ compsAgree (doc.comps ++ allComponents (r :: rs)) := by
            apply compsAgree_congr
            intro p
            simp only [List.mem_append, hmem₁ p, allComponents, List.map_cons,
              List.flatten_cons]
            tauto
          constructor
          · rintro ⟨doc', h⟩
            rw [hstep] at h
            obtain ⟨hresps, hnd, hA⟩ := hIH.mp ⟨doc', h⟩
            refine ⟨?_, ?_, hcomps_iff.mp hA⟩
            · intro r' hr'
              rcases List.mem_cons.mp hr' with hr' | hr'
              · rw [hr', hresp]
                rfl
              · exact hresps r' hr'
            · rw [List.map_cons]
              exact hpaths_iff.mp hnd
          · rintro ⟨hresps, hnd, hA⟩
            have h2 : ((doc.paths ++ [(r.path, r.verb)]) ++ rs.map routeKey).Nodup := by
              rw [List.map_cons] at hnd
              exact hpaths_iff.mpr hnd
            rcases hIH.mpr
              ⟨fun r' hr' => hresps r' (List.mem_cons_of_mem _ hr'), h2,
                hcomps_iff.mpr hA⟩ with ⟨doc', h⟩
            exact ⟨doc', by rw [hstep]; exact h⟩

/-- C9: synthesis aborts with an assembly-time fatal error exactly when a
route is missing its response schema, two routes share a path+verb pair,
or two conflicting structures register the same component name; every
route list free of those defects reaches the Ready document. -/
theorem synthesize_fatal_errors (routes : List RouteSpec) :
    (∃ doc, synthesize routes = .ok doc) ↔
      ((∀ r ∈ routes, r.response.isSome = true)
        ∧ (routes.map routeKey).Nodup
        ∧ compsAgree (allComponents routes)) := by
  have h := synthesizeFrom_isOk routes ⟨[], []⟩ (by simp) (by simp)
  simpa [synthesize] using h

/-- Closed instantiation of C9's theorem: one well-formed route reaches
the Ready document. -/
theorem synthesize_fatal_errors_witness :
    ∃ doc, synthesize [⟨"/api/users", .GET, some "UserList", [("User", "objA")]⟩] = .ok doc :=
  (synthesize_fatal_errors [⟨"/api/users", .GET, some "UserList", [("User", "objA")]⟩]).mpr
    ⟨by decide, by decide, by
      intro n s s' h1 h2
      simp [allComponents] at h1 h2
      rw [h1.2, h2.2]⟩

end Stratal
